import Mathlib

/-!
# gmailapi: token acquisition and cache flow

A shallow embedding of `gmailapi.go`.  The package sequences calls into the Go
standard library, `golang.org/x/oauth2` and the generated Gmail client.  The
functions of the package are translated one to one; what they call is modelled
as follows.

* Go strings are Lean strings; a Go `error` is its message (`err.Error()`).
* A function returning `(*T, error)` returns a pair of options, so that
  "a value and an error at once" is expressible.
* The file system, the console and the current user form an explicit `World`
  that is threaded through every function with an effect.  Paths are resolved
  by their clean names; standard input is the sequence of data its reads
  return, so that a read may deliver a line (a terminal) or a block of several
  lines (redirected input).
* The pure library functions `url.QueryEscape`, `filepath.Join` (Unix) and
  `strings.TrimSpace` are modelled from their documentation.
* The collaborators whose behaviour the package does not fix (the JSON codec of
  `oauth2.Token`, `Config.AuthCodeURL`, `Config.Exchange`,
  `google.ConfigFromJSON`, `gmail.New`) are fields of an `Env`.
* `World.calls` is ghost state: it records the entry into `tokenFromWeb` and
  `saveToken` and each call of `Config.Exchange` and `Config.Client`, so that
  "is invoked exactly once" and "is never invoked" can be stated.
-/

namespace Gmailapi

/-! ## Library string functions -/

/-- The UTF-8 encoding of a character, as a list of byte values. -/
def utf8Bytes (c : Char) : List Nat :=
  let n := c.toNat
  if n < 0x80 then [n]
  else if n < 0x800 then [0xC0 + n / 64, 0x80 + n % 64]
  else if n < 0x10000 then [0xE0 + n / 4096, 0x80 + (n / 64) % 64, 0x80 + n % 64]
  else [0xF0 + n / 262144, 0x80 + (n / 4096) % 64, 0x80 + (n / 64) % 64, 0x80 + n % 64]

/-- The upper-case hexadecimal digit of a value below 16 (`"0123456789ABCDEF"[n]`). -/
def upperhex (n : Nat) : Char :=
  if n < 10 then Char.ofNat (48 + n) else Char.ofNat (55 + n)

/-- The bytes `url.QueryEscape` leaves as they are: ASCII letters, digits and
`-`, `_`, `.`, `~` (`shouldEscape` in mode `encodeQueryComponent`). -/
def queryUnreserved (c : Char) : Bool :=
  c.isAlphanum || c == '-' || c == '_' || c == '.' || c == '~'

/-- One character under `url.QueryEscape`: kept, `+` for a space, or `%XX` for
each byte of its UTF-8 encoding. -/
def escapeChar (c : Char) : List Char :=
  if queryUnreserved c then [c]
  else if c == ' ' then ['+']
  else (utf8Bytes c).flatMap (fun b => ['%', upperhex (b / 16), upperhex (b % 16)])

/-- Go's `url.QueryEscape`. -/
def QueryEscape (s : String) : String :=
  String.mk (s.toList.flatMap escapeChar)

/-- The elements of a path between its separators (`/`). -/
def splitSlash : List Char → List (List Char)
  | [] => [[]]
  | c :: cs =>
    if c = '/' then [] :: splitSlash cs
    else
      match splitSlash cs with
      | [] => [[c]]
      | e :: es => (c :: e) :: es

/-- One element of a path processed by `filepath.Clean`; `out` holds the kept
elements, last one first.  Empty and `.` elements are dropped, a `..` removes
the element before it when that is not itself `..`, is dropped at the root and
is kept otherwise. -/
def cleanStep (rooted : Bool) (out : List (List Char)) (e : List Char) : List (List Char) :=
  if e = [] ∨ e = ['.'] then out
  else if e = ['.', '.'] then
    match out with
    | [] => if rooted then [] else [e]
    | top :: rest => if top = ['.', '.'] then e :: out else rest
  else e :: out

/-- The kept elements of a path, first one first. -/
def cleanElems (rooted : Bool) (p : List Char) : List (List Char) :=
  ((splitSlash p).foldl (cleanStep rooted) []).reverse

/-- Path elements joined by the separator. -/
def joinSlash : List (List Char) → List Char
  | [] => []
  | [e] => e
  | e :: es => e ++ '/' :: joinSlash es

/-- Go's `filepath.Clean` on Unix, on the characters of the path. -/
def cleanChars (p : List Char) : List Char :=
  match p with
  | [] => ['.']
  | c :: _ =>
    if c = '/' then '/' :: joinSlash (cleanElems true p)
    else
      match cleanElems false p with
      | [] => ['.']
      | es => joinSlash es

/-- Go's `filepath.Clean` on Unix. -/
def Clean (path : String) : String :=
  String.mk (cleanChars path.toList)

/-- Go's `strings.Join(elem, "/")`. -/
def joinWithSep : List String → String
  | [] => ""
  | [e] => e
  | e :: es => e ++ "/" ++ joinWithSep es

/-- Go's `filepath.Join` on Unix: the elements from the first non-empty one on,
joined by the separator and cleaned; the empty string when all are empty. -/
def Join : List String → String
  | [] => ""
  | e :: es => if e = "" then Join es else Clean (joinWithSep (e :: es))

/-- Go's `unicode.IsSpace`. -/
def isSpace (c : Char) : Bool :=
  let n := c.toNat
  (9 ≤ n && n ≤ 13) || n == 0x20 || n == 0x85 || n == 0xA0 || n == 0x1680 ||
  (0x2000 ≤ n && n ≤ 0x200A) || n == 0x2028 || n == 0x2029 || n == 0x202F ||
  n == 0x205F || n == 0x3000

/-- Go's `strings.TrimSpace`: leading and trailing white space removed. -/
def TrimSpace (s : String) : String :=
  String.mk ((s.toList.dropWhile isSpace).reverse.dropWhile isSpace).reverse

/-! ## Data model -/

/-- A Go `error`, represented by its message. -/
abbrev GoError := String

/-- The type `context.Context`; the package only passes it on. -/
structure Context where
  id : Nat
deriving DecidableEq, Repr

/-- The type `oauth2.Config`. -/
structure Config where
  ClientID : String
  ClientSecret : String
  AuthURL : String
  TokenURL : String
  RedirectURL : String
  Scopes : List String
deriving DecidableEq, Repr

/-- The type `oauth2.Token`: the four fields of the cache file.  `Expiry` is the
instant in the textual form it has on disk. -/
structure Token where
  AccessToken : String
  TokenType : String
  RefreshToken : String
  Expiry : String
deriving DecidableEq, Repr

/-- The value `&oauth2.Token{}` that `tokenFromFile` decodes into. -/
def Token.zero : Token := ⟨"", "", "", ""⟩

/-- The `*http.Client` built by `Config.Client(ctx, token)`: it is determined by
the configuration, the context and the token (a pointer, possibly nil) it was
built from. -/
structure HttpClient where
  config : Config
  ctx : Context
  token : Option Token
deriving DecidableEq, Repr

/-- The type `gmail.Service`, bound to the client it was made from. -/
structure Service where
  client : HttpClient
deriving DecidableEq, Repr

/-- The struct `Helper`.  `Config` is a pointer in the source; the nil pointer
is outside this model. -/
structure Helper where
  Ctx : Context
  TokenFile : String
  Config : Config
deriving DecidableEq, Repr

/-- Ghost record of a call. -/
inductive Call where
  | tokenFromWeb (config : Config)
  | saveToken (file : String) (token : Option Token)
  | exchange (code : String)
  | client (token : Option Token)
deriving DecidableEq, Repr

/-- The collaborators the package leaves open. -/
structure Env where
  /-- The bytes `json.NewEncoder(f).Encode(token)` produces, or the marshalling error. -/
  jsonEncode : Option Token → Except GoError String
  /-- The effect of `json.NewDecoder(f).Decode(t)` on `t = &oauth2.Token{}`
  for a file of the given content: the token afterwards and the error. -/
  jsonDecode : String → Token × Option GoError
  /-- The function `config.AuthCodeURL(state, oauth2.AccessTypeOffline)`. -/
  AuthCodeURL : Config → String → String
  /-- The function `config.Exchange(oauth2.NoContext, code)`. -/
  Exchange : Config → String → Option Token × Option GoError
  /-- The function `google.ConfigFromJSON(b, scope)`. -/
  googleConfigFromJSON : String → String → Option Config × Option GoError
  /-- The function `gmail.New(client)`. -/
  gmailNew : Option HttpClient → Option Service × Option GoError

/-- The state outside the program. -/
structure World where
  /-- The regular files: clean path and content. -/
  files : List (String × String)
  /-- The directories, by their clean paths, next to the root and the working
  directory. -/
  dirs : List String
  /-- Clean paths the process may not open for reading. -/
  noRead : List String
  /-- Clean paths the process may not open, create or truncate for writing. -/
  noWrite : List String
  /-- Clean paths at which the process may not create a directory. -/
  noMkdir : List String
  /-- The device is full: writing data fails. -/
  noSpace : Bool
  /-- The result of `user.Current()`: the home directory, or the error. -/
  currentUser : Except GoError String
  /-- What standard input still holds: the data each further read of it
  returns.  On a terminal a read returns one line, newline included; for a pipe
  or a file a read returns a block, which may hold several lines. -/
  stdin : List String
  /-- What has been written to standard output. -/
  stdout : String
  /-- Ghost state: the calls made so far, oldest first. -/
  calls : List Call

/-- The content of the regular file at a path.  Files and directories are
stored under their clean names, and a path is looked up by its clean name; the
empty path names nothing. -/
def World.content (w : World) (path : String) : Option String :=
  if path = "" then none else w.files.lookup (Clean path)

/-- The path names a directory that exists: the root, the working directory or
one of `dirs`. -/
def World.isDir (w : World) (path : String) : Bool :=
  path != "" && (Clean path == "/" || Clean path == "." || w.dirs.contains (Clean path))

/-- Writing to standard output (`fmt.Printf`, `io.WriteString(os.Stdout, _)`). -/
def World.print (w : World) (s : String) : World :=
  { w with stdout := w.stdout ++ s }

/-- Recording a call in the ghost state. -/
def World.record (w : World) (c : Call) : World :=
  { w with calls := w.calls ++ [c] }

/-- The file at a path set to a content, replacing what was there. -/
def World.setFile (w : World) (path content : String) : World :=
  { w with files := (Clean path, content) :: w.files.filter (fun e => e.1 != Clean path) }

/-! ## Operating system calls -/

/-- Go's `os.Open(file)`: the content readable through the handle, or the error. -/
def osOpen (w : World) (file : String) : Except GoError String :=
  match w.content file with
  | none => .error ("open " ++ file ++ ": no such file or directory")
  | some c =>
    if Clean file ∈ w.noRead then .error ("open " ++ file ++ ": permission denied")
    else .ok c

/-- Go's `ioutil.ReadFile(path)`. -/
def ioutilReadFile (w : World) (path : String) : Except GoError String :=
  osOpen w path

/-- The directory a clean path lies in, when that is neither the root nor the
working directory: the path up to its last separator. -/
def parentDir (path : String) : Option String :=
  match path.toList.reverse.dropWhile (fun c => c != '/') with
  | [] => none
  | _ :: before =>
    match before.dropWhile (fun c => c == '/') with
    | [] => none
    | d => some (String.mk d.reverse)

/-- No entry can be made at the path: the name is empty or the directory it lies
in does not exist. -/
def World.cannotCreate (w : World) (path : String) : Bool :=
  path == "" ||
    match parentDir (Clean path) with
    | none => false
    | some d => !(w.isDir d)

/-- Go's `os.OpenFile(file, os.O_RDWR|os.O_CREATE|os.O_TRUNC, 0600)`: the file
is created or truncated, which needs the directory of a new file to exist, and
read and write access. -/
def osOpenFile (w : World) (file : String) : Except GoError World :=
  if w.isDir file then .error ("open " ++ file ++ ": is a directory")
  else if (w.content file).isNone && w.cannotCreate file then
    .error ("open " ++ file ++ ": no such file or directory")
  else if Clean file ∈ w.noWrite ∨ Clean file ∈ w.noRead then
    .error ("open " ++ file ++ ": permission denied")
  else .ok (w.setFile file "")

/-- Writing data through a handle on a file opened by `osOpenFile`. -/
def fileWrite (w : World) (file data : String) : Except GoError World :=
  if w.noSpace then .error ("write " ++ file ++ ": no space left on device")
  else .ok (w.setFile file ((w.content file).getD "" ++ data))

/-- Go's `os.Mkdir(path, 0700)`. -/
def osMkdir (w : World) (path : String) : Option GoError × World :=
  if w.cannotCreate path then (some ("mkdir " ++ path ++ ": no such file or directory"), w)
  else if w.isDir path || (w.content path).isSome then
    (some ("mkdir " ++ path ++ ": file exists"), w)
  else if Clean path ∈ w.noMkdir then (some ("mkdir " ++ path ++ ": permission denied"), w)
  else (none, { w with dirs := Clean path :: w.dirs })

/-- The ancestors of a path that `os.MkdirAll` makes sure of before the path
itself, outermost first: each non-empty prefix that ends before a separator
which the first character of an element follows.  `acc` holds the characters
passed, last one first. -/
def mkdirPrefixes (acc : List Char) : List Char → List String
  | c :: d :: rest =>
    (if acc ≠ [] ∧ c = '/' ∧ d ≠ '/' then [String.mk acc.reverse] else []) ++
      mkdirPrefixes (c :: acc) (d :: rest)
  | _ => []

/-- The recursion of `os.MkdirAll` on a path followed by its ancestors,
innermost first: a directory that exists ends it with success, a regular file
with an error; otherwise the ancestors are made first and then the directory
itself, and the first error ends it, with what was made before left in place. -/
def mkdirAllChain (w : World) : List String → Option GoError × World
  | [] => (none, w)
  | path :: parents =>
    if w.isDir path then (none, w)
    else if (w.content path).isSome then (some ("mkdir " ++ path ++ ": not a directory"), w)
    else
      match mkdirAllChain w parents with
      | (some err, w1) => (some err, w1)
      | (none, w1) => osMkdir w1 path

/-- Go's `os.MkdirAll(path, 0700)`. -/
def osMkdirAll (w : World) (path : String) : Option GoError × World :=
  mkdirAllChain w (path :: (mkdirPrefixes [] path.toList).reverse)

/-- The number of bytes of a text in UTF-8. -/
def byteLen (cs : List Char) : Nat :=
  (cs.map (fun c => (utf8Bytes c).length)).sum

/-- The constant `bufio.MaxScanTokenSize`: the largest buffer of a scanner. -/
def maxScanTokenSize : Nat := 65536

/-- Go's `dropCR`: one carriage return at the end removed. -/
def dropCR (cs : List Char) : List Char :=
  if cs.getLast? = some '\r' then cs.dropLast else cs

/-- The line `bufio.ScanLines` finds in the data buffered when reading stops:
the text before the first newline, or all of it at the end of input when it is
not empty, without a carriage return at its end; none when the buffer limit is
reached before a newline. -/
def scanToken (buf : List Char) : Option String :=
  let pre := buf.takeWhile (fun c => c != '\n')
  if maxScanTokenSize ≤ byteLen pre then none
  else if '\n' ∈ buf then some (String.mk (dropCR pre))
  else if pre = [] then none
  else some (String.mk (dropCR pre))

/-- One call of `Scan()` on a fresh `bufio.Scanner`: with `buf` buffered, reads
are made until the buffer holds a newline, the buffer limit is reached or the
input ends.  The result is the line found and the reads left; what was read
after the line stays in the buffer of the scanner. -/
def scanFrom (buf : List Char) : List String → Option String × List String
  | [] => (scanToken buf, [])
  | chunk :: rest =>
    if '\n' ∈ buf ∨ maxScanTokenSize ≤ byteLen buf then (scanToken buf, chunk :: rest)
    else scanFrom (buf ++ chunk.toList) rest

/-- The first `Scan()` of a fresh scanner on an input. -/
def scanText (input : List String) : Option String × List String :=
  scanFrom [] input

/-- The statements `bs := bufio.NewScanner(os.Stdin)`, `bs.Scan()` and
`bs.Text()`: the line read, or nothing when no line can be read, and the world
after the reads the scanner made.  The scanner is local to `tokenFromWeb`, so
what it buffered beyond the line is lost. -/
def scanLine (w : World) : Option String × World :=
  ((scanText w.stdin).1, { w with stdin := (scanText w.stdin).2 })

/-! ## The package -/

/-- The function `ConfigFromJSON`: reads the client secret file and parses it
into a configuration. -/
def ConfigFromJSON (env : Env) (w : World) (jsonPath scope : String) :
    (Option Config × Option GoError) × World :=
  match ioutilReadFile w jsonPath with
  | .error err => ((none, some ("Unable to read client secret file: " ++ err)), w)
  | .ok b =>
    match env.googleConfigFromJSON b scope with
    | (_, some err) =>
      ((none, some ("Unable to parse client secret file to config: " ++ err)), w)
    | (config, none) => ((config, none), w)

/-- The function `DefaultDirectory`: the `.credentials` folder in the home
directory of the current user. -/
def DefaultDirectory (w : World) : String × Option GoError :=
  match w.currentUser with
  | .error err => ("", some err)
  | .ok homeDir => (Join [homeDir, ".credentials"], none)

/-- The function `CreateTokenFile`: the result of `os.MkdirAll` is dropped. -/
def CreateTokenFile (w : World) (directory filename : String) :
    (String × Option GoError) × World :=
  let tokenCacheDir := directory
  let w1 := (osMkdirAll w tokenCacheDir).2
  ((Join [tokenCacheDir, QueryEscape filename], none), w1)

/-- The function `tokenFromFile`: the token is returned next to the error of the
decoder, also when that error is not nil. -/
def tokenFromFile (env : Env) (w : World) (file : String) : Option Token × Option GoError :=
  match osOpen w file with
  | .error err => (none, some err)
  | .ok f =>
    let (t, err) := env.jsonDecode f
    (some t, err)

/-- The function `tokenFromWeb`: prompt, one line of input, exchange. -/
def tokenFromWeb (env : Env) (w : World) (config : Config) :
    (Option Token × Option GoError) × World :=
  let w0 := w.record (.tokenFromWeb config)
  let authURL := env.AuthCodeURL config "state-token"
  let w1 := w0.print ("Go to the following link in your browser then type the " ++
    "authorization code: \n" ++ authURL ++ "\n")
  let w2 := w1.print "Enter code> "
  match scanLine w2 with
  | (none, w3) => ((none, some "Unable to read authorization code"), w3)
  | (some text, w3) =>
    let code := TrimSpace text
    let w4 := w3.record (.exchange code)
    match env.Exchange config code with
    | (_, some err) => ((none, some ("Unable to retrieve token from web " ++ err)), w4)
    | (token, none) => ((token, none), w4)

/-- The call `json.NewEncoder(f).Encode(token)` on the file just opened: an
error when the token cannot be marshalled or the bytes cannot be written. -/
def encoderEncode (env : Env) (w : World) (file : String) (token : Option Token) :
    Option GoError × World :=
  match env.jsonEncode token with
  | .error err => (some err, w)
  | .ok data =>
    match fileWrite w file data with
    | .error err => (some err, w)
    | .ok w1 => (none, w1)

/-- The function `saveToken`: the result of `Encode` is dropped. -/
def saveToken (env : Env) (w : World) (file : String) (token : Option Token) :
    Option GoError × World :=
  let w0 := w.record (.saveToken file token)
  let w1 := w0.print ("Saving credential file to: " ++ file ++ "\n")
  match osOpenFile w1 file with
  | .error err => (some ("Unable to cache oauth token: " ++ err), w1)
  | .ok w2 =>
    let w3 := (encoderEncode env w2 file token).2
    (none, w3)

/-- The method `Config.Client(ctx, token)`. -/
def configClient (w : World) (config : Config) (ctx : Context) (token : Option Token) :
    HttpClient × World :=
  (⟨config, ctx, token⟩, w.record (.client token))

/-- The method `Helper.httpClient`: the cached token, or else a token from the
web, which is saved; the result of `saveToken` is dropped. -/
def Helper.httpClient (env : Env) (h : Helper) (w : World) :
    (Option HttpClient × Option GoError) × World :=
  match tokenFromFile env w h.TokenFile with
  | (token, none) =>
    let (c, w1) := configClient w h.Config h.Ctx token
    ((some c, none), w1)
  | (_, some _) =>
    match tokenFromWeb env w h.Config with
    | ((_, some err), w1) => ((none, some err), w1)
    | ((token, none), w1) =>
      let w2 := (saveToken env w1 h.TokenFile token).2
      let (c, w3) := configClient w2 h.Config h.Ctx token
      ((some c, none), w3)

/-- The method `Helper.NewService`. -/
def Helper.NewService (env : Env) (h : Helper) (w : World) :
    (Option Service × Option GoError) × World :=
  match h.httpClient env w with
  | ((_, some err), w1) => ((none, some err), w1)
  | ((client, none), w1) =>
    match env.gmailNew client with
    | (_, some err) => ((none, some ("Unable to retrieve gmail Client " ++ err)), w1)
    | (srv, none) => ((srv, none), w1)

/-! ## A sample environment and sample worlds -/

/-- A token as the exchange returns it. -/
def sampleToken : Token := ⟨"tok1", "Bearer", "", "2030-01-01T00:00:00Z"⟩

/-- The cache file of `sampleToken`. -/
def sampleJSON : String :=
  "\x7b\"access_token\":\"tok1\",\"token_type\":\"Bearer\",\"expiry\":\"2030-01-01T00:00:00Z\"\x7d\n"

/-- A client secret file. -/
def sampleSecret : String :=
  "\x7b\"installed\":\x7b\"client_id\":\"X\",\"client_secret\":\"Y\"\x7d\x7d"

/-- The configuration of `sampleSecret` for a scope. -/
def sampleConfig (scope : String) : Config :=
  ⟨"X", "Y", "https://accounts.google.com/o/oauth2/auth",
    "https://accounts.google.com/o/oauth2/token", "urn:ietf:wg:oauth:2.0:oob", [scope]⟩

/-- A sample encoder: the JSON object of a token whose strings need no escaping. -/
def sampleEncode : Option Token → Except GoError String
  | none => .ok "null\n"
  | some t =>
    .ok ("\x7b\"access_token\":\"" ++ t.AccessToken ++ "\",\"token_type\":\"" ++ t.TokenType ++
      (if t.RefreshToken = "" then "" else "\",\"refresh_token\":\"" ++ t.RefreshToken) ++
      "\",\"expiry\":\"" ++ t.Expiry ++ "\"\x7d\n")

/-- A sample decoder: it knows the cache file of `sampleToken`, reports `EOF` on
an empty file and rejects every other content. -/
def sampleDecode (content : String) : Token × Option GoError :=
  if content = sampleJSON then (sampleToken, none)
  else if content = "" then (Token.zero, some "EOF")
  else (Token.zero, some "invalid character")

/-- A sample environment: the code `abc123` is exchanged for `sampleToken`. -/
def sampleEnv : Env where
  jsonEncode := sampleEncode
  jsonDecode := sampleDecode
  AuthCodeURL := fun config state =>
    config.AuthURL ++ "?access_type=offline&client_id=" ++ QueryEscape config.ClientID ++
      "&response_type=code&state=" ++ QueryEscape state
  Exchange := fun _ code =>
    if code = "abc123" then (some sampleToken, none)
    else (none, some "oauth2: cannot fetch token: 400 Bad Request")
  googleConfigFromJSON := fun b scope =>
    if b = sampleSecret then (some (sampleConfig scope), none)
    else (none, some "unexpected end of JSON input")
  gmailNew := fun client =>
    match client with
    | none => (none, some "client is nil")
    | some c => (some ⟨c⟩, none)

/-- A helper with the sample configuration and a cache file in the default place. -/
def sampleHelper : Helper :=
  ⟨⟨0⟩, "/home/u/.credentials/gmail-token.json", sampleConfig "gmail.readonly"⟩

/-- A world without a cache file; `input` is what the reads of standard input
return. -/
def freshWorld (input : List String) : World where
  files := [("client_secret.json", sampleSecret)]
  dirs := ["/home/u", "/home/u/.credentials"]
  noRead := []
  noWrite := []
  noMkdir := []
  noSpace := false
  currentUser := .ok "/home/u"
  stdin := input
  stdout := ""
  calls := []

/-- A world whose cache file holds `sampleToken`. -/
def cachedWorld : World :=
  { freshWorld ["never read"] with
    files := [("/home/u/.credentials/gmail-token.json", sampleJSON)] }

/-- A world without a cache file in which the cache file may not be written. -/
def readOnlyWorld (input : List String) : World :=
  { freshWorld input with noWrite := ["/home/u/.credentials/gmail-token.json"] }

/-- A world in which `/root` exists and the directory `/root/.credentials` may not
be created in it. -/
def lockedWorld : World :=
  { freshWorld [] with
    dirs := ["/root", "/home/u", "/home/u/.credentials"], noMkdir := ["/root/.credentials"] }

/-- A world without a cache file on a full device: a file can be created, data
cannot be written. -/
def fullWorld : World :=
  { freshWorld [] with noSpace := true }

/-! ## Invariant of `filepath.Clean` -/

/-- A path element that `filepath.Clean` keeps: not empty, not `.`, free of separators. -/
def keptElem (e : List Char) : Prop :=
  e ≠ [] ∧ e ≠ ['.'] ∧ '/' ∉ e

/-- The invariant of the elements kept by `filepath.Clean`, last one first: a `..`
is kept only in a path that is not rooted, and only above other `..`. -/
def keptStack (rooted : Bool) : List (List Char) → Prop
  | [] => True
  | e :: rest =>
    keptElem e ∧ (e = ['.', '.'] → rooted = false ∧ ∀ x ∈ rest, x = ['.', '.']) ∧
      keptStack rooted rest

/-! ## Checks of the library models -/

example : QueryEscape "gmail-token.json" = "gmail-token.json" := by decide
example : QueryEscape "a b/c?d=é" = "a+b%2Fc%3Fd%3D%C3%A9" := by decide
example : Clean "a//b/./c/.." = "a/b" := by decide
example : Clean "/../a/b/../../.." = "/" := by decide
example : Clean "../../a/.." = "../.." := by decide
example : Clean "a/.." = "." := by decide
example : Clean "" = "." := by decide
example : Join ["", "x.json"] = "x.json" := by decide
example : Join ["", ""] = "" := by decide
example : Join ["/home/u", ".credentials"] = "/home/u/.credentials" := by decide
example : Join ["/home/u/", "", "/x"] = "/home/u/x" := by decide
example : TrimSpace "  abc123 \t\r" = "abc123" := by decide

/-! ## Facts about `filepath.Clean` and `filepath.Join` -/

theorem splitSlash_ne_nil (p : List Char) : splitSlash p ≠ [] := by
  cases p with
  | nil => simp [splitSlash]
  | cons c cs =>
    unfold splitSlash
    split_ifs
    · simp
    · split <;> simp

theorem splitSlash_append (p c : List Char) :
    splitSlash (p ++ '/' :: c) = splitSlash p ++ splitSlash c := by
  induction p with
  | nil => simp [splitSlash]
  | cons x xs ih =>
    by_cases hx : x = '/'
    · simp [splitSlash, hx, ih]
    · have h1 : splitSlash (x :: (xs ++ '/' :: c)) =
          (match splitSlash (xs ++ '/' :: c) with
            | [] => [[x]]
            | e :: es => (x :: e) :: es) := by
        rw [splitSlash]; simp [hx]
      have h2 : splitSlash (x :: xs) =
          (match splitSlash xs with
            | [] => [[x]]
            | e :: es => (x :: e) :: es) := by
        rw [splitSlash]; simp [hx]
      rw [List.cons_append, h1, h2, ih]
      cases hs : splitSlash xs with
      | nil => exact absurd hs (splitSlash_ne_nil xs)
      | cons e es => simp

theorem splitSlash_no_sep (e : List Char) (h : '/' ∉ e) : splitSlash e = [e] := by
  induction e with
  | nil => simp [splitSlash]
  | cons x xs ih =>
    simp only [List.mem_cons, not_or] at h
    have hx : ¬ x = '/' := fun hx => h.1 hx.symm
    rw [splitSlash]
    simp [hx, ih h.2]

theorem mem_splitSlash_no_sep (p : List Char) : ∀ e ∈ splitSlash p, '/' ∉ e := by
  induction p with
  | nil => simp [splitSlash]
  | cons x xs ih =>
    by_cases hx : x = '/'
    · intro e he
      simp only [splitSlash, hx, if_true, List.mem_cons] at he
      rcases he with rfl | he
      · simp
      · exact ih e he
    · intro e he
      rw [splitSlash] at he
      simp only [hx, if_false] at he
      cases hs : splitSlash xs with
      | nil => exact absurd hs (splitSlash_ne_nil xs)
      | cons e0 es =>
        rw [hs] at he ih
        simp only [List.mem_cons] at he
        rcases he with rfl | he
        · have := ih e0 (by simp)
          simp only [List.mem_cons, not_or]
          exact ⟨fun h => hx h.symm, this⟩
        · exact ih e (by simp [he])

theorem splitSlash_joinSlash (es : List (List Char)) (hne : es ≠ [])
    (h : ∀ e ∈ es, '/' ∉ e) : splitSlash (joinSlash es) = es := by
  induction es with
  | nil => exact absurd rfl hne
  | cons e rest ih =>
    cases rest with
    | nil => simpa [joinSlash] using splitSlash_no_sep e (h e (by simp))
    | cons e' rest' =>
      have hj : joinSlash (e :: e' :: rest') = e ++ '/' :: joinSlash (e' :: rest') := rfl
      rw [hj, splitSlash_append, splitSlash_no_sep e (h e (by simp)),
        ih (by simp) (fun x hx => h x (by simp [hx]))]
      simp

theorem cleanStep_skip (rooted : Bool) (out : List (List Char)) (e : List Char)
    (h : e = [] ∨ e = ['.']) : cleanStep rooted out e = out := by
  simp [cleanStep, h]

theorem cleanStep_dotdot_nil (rooted : Bool) :
    cleanStep rooted [] ['.', '.'] = if rooted then [] else [['.', '.']] := by
  simp [cleanStep]

theorem cleanStep_dotdot_cons (rooted : Bool) (top : List Char) (rest : List (List Char)) :
    cleanStep rooted (top :: rest) ['.', '.'] =
      if top = ['.', '.'] then ['.', '.'] :: top :: rest else rest := by
  simp [cleanStep]

theorem cleanStep_push (rooted : Bool) (out : List (List Char)) (e : List Char)
    (h1 : e ≠ []) (h2 : e ≠ ['.']) (h3 : e ≠ ['.', '.']) :
    cleanStep rooted out e = e :: out := by
  simp [cleanStep, h1, h2, h3]

theorem keptElem_dotdot : keptElem ['.', '.'] := by
  simp [keptElem]

theorem keptStack_cleanStep (rooted : Bool) (out : List (List Char)) (e : List Char)
    (hout : keptStack rooted out) (he : '/' ∉ e) : keptStack rooted (cleanStep rooted out e) := by
  by_cases h1 : e = [] ∨ e = ['.']
  · rw [cleanStep_skip rooted out e h1]
    exact hout
  · simp only [not_or] at h1
    by_cases h2 : e = ['.', '.']
    · subst h2
      cases out with
      | nil =>
        rw [cleanStep_dotdot_nil]
        cases rooted with
        | true => simp [keptStack]
        | false => simp [keptStack, keptElem]
      | cons top rest =>
        rw [cleanStep_dotdot_cons]
        by_cases h3 : top = ['.', '.']
        · rw [if_pos h3]
          subst h3
          obtain ⟨hk, hd, hr⟩ := hout
          have hdd := hd rfl
          refine ⟨hk, fun _ => ⟨hdd.1, ?_⟩, hk, hd, hr⟩
          intro x hx
          simp only [List.mem_cons] at hx
          rcases hx with rfl | hx
          · rfl
          · exact hdd.2 x hx
        · rw [if_neg h3]
          exact hout.2.2
    · rw [cleanStep_push rooted out e h1.1 h1.2 h2]
      exact ⟨⟨h1.1, h1.2, he⟩, fun h => absurd h h2, hout⟩

theorem keptStack_foldl (rooted : Bool) (es out : List (List Char))
    (hout : keptStack rooted out) (hes : ∀ e ∈ es, '/' ∉ e) :
    keptStack rooted (es.foldl (cleanStep rooted) out) := by
  induction es generalizing out with
  | nil => exact hout
  | cons e rest ih =>
    simp only [List.foldl_cons]
    exact ih _ (keptStack_cleanStep rooted out e hout (hes e (by simp)))
      (fun x hx => hes x (by simp [hx]))

theorem keptStack_mem (rooted : Bool) (out : List (List Char)) (h : keptStack rooted out) :
    ∀ e ∈ out, keptElem e := by
  induction out with
  | nil => simp
  | cons e rest ih =>
    intro x hx
    simp only [List.mem_cons] at hx
    rcases hx with rfl | hx
    · exact h.1
    · exact ih h.2.2 x hx

theorem keptStack_no_sep (rooted : Bool) (out : List (List Char)) (h : keptStack rooted out) :
    ∀ e ∈ out, '/' ∉ e :=
  fun e he => (keptStack_mem rooted out h e he).2.2

/-- Cleaning the kept elements again keeps all of them. -/
theorem foldl_cleanStep_reverse (rooted : Bool) (out : List (List Char))
    (h : keptStack rooted out) : out.reverse.foldl (cleanStep rooted) [] = out := by
  induction out with
  | nil => rfl
  | cons e rest ih =>
    rw [List.reverse_cons, List.foldl_append, ih h.2.2]
    simp only [List.foldl_cons, List.foldl_nil]
    obtain ⟨⟨h1, h2, _⟩, hd, _⟩ := h
    by_cases h3 : e = ['.', '.']
    · obtain ⟨hr, hall⟩ := hd h3
      subst h3
      cases rest with
      | nil => rw [cleanStep_dotdot_nil, hr]; rfl
      | cons top rest' => rw [cleanStep_dotdot_cons, if_pos (hall top (by simp))]
    · exact cleanStep_push rooted rest e h1 h2 h3

theorem cleanElems_append (rooted : Bool) (q c : List Char) :
    cleanElems rooted (q ++ '/' :: c) =
      ((splitSlash c).foldl (cleanStep rooted) ((splitSlash q).foldl (cleanStep rooted) [])).reverse := by
  simp [cleanElems, splitSlash_append, List.foldl_append]

theorem keptStack_split (rooted : Bool) (p : List Char) :
    keptStack rooted ((splitSlash p).foldl (cleanStep rooted) []) :=
  keptStack_foldl rooted _ [] trivial (mem_splitSlash_no_sep p)

/-- The elements of a joined list of kept elements clean to themselves. -/
theorem foldl_split_joinSlash (rooted : Bool) (out : List (List Char))
    (h : keptStack rooted out) (hne : out ≠ []) :
    (splitSlash (joinSlash out.reverse)).foldl (cleanStep rooted) [] = out := by
  rw [splitSlash_joinSlash out.reverse (by simpa using hne)
    (fun e he => keptStack_no_sep rooted out h e (by simpa using he))]
  exact foldl_cleanStep_reverse rooted out h

theorem joinSlash_head (e : List Char) (es : List (List Char)) (x : Char) (xs : List Char)
    (he : e = x :: xs) : ∃ ys, joinSlash (e :: es) = x :: ys := by
  subst he
  cases es with
  | nil => exact ⟨xs, rfl⟩
  | cons e' rest => exact ⟨xs ++ '/' :: joinSlash (e' :: rest), rfl⟩

theorem cleanChars_rooted (xs : List Char) :
    cleanChars ('/' :: xs) = '/' :: joinSlash (cleanElems true ('/' :: xs)) := by
  simp [cleanChars]

theorem cleanChars_unrooted (x : Char) (xs : List Char) (hx : x ≠ '/') :
    cleanChars (x :: xs) =
      (match cleanElems false (x :: xs) with
        | [] => ['.']
        | es => joinSlash es) := by
  simp [cleanChars, hx]

/-- The clean form of a path that is not rooted is not rooted, and its elements
are the kept ones. -/
theorem cleanChars_unrooted_head (x : Char) (xs : List Char) (hx : x ≠ '/') :
    ∃ y ys, cleanChars (x :: xs) = y :: ys ∧ y ≠ '/' ∧
      (splitSlash (y :: ys)).foldl (cleanStep false) [] =
        (splitSlash (x :: xs)).foldl (cleanStep false) [] := by
  have hk := keptStack_split false (x :: xs)
  rw [cleanChars_unrooted x xs hx]
  cases hne : (splitSlash (x :: xs)).foldl (cleanStep false) [] with
  | nil =>
    refine ⟨'.', [], by simp [cleanElems, hne], by decide, ?_⟩
    simp [splitSlash, cleanStep]
  | cons top rest =>
    rw [hne] at hk
    have hrev : cleanElems false (x :: xs) = (top :: rest).reverse := by
      simp [cleanElems, hne]
    have hne' : (top :: rest).reverse ≠ [] := by simp
    cases hr : (top :: rest).reverse with
    | nil => exact absurd hr hne'
    | cons e0 es0 =>
      have he0 : e0 ∈ top :: rest := by
        apply List.mem_reverse.mp
        rw [hr]
        exact List.mem_cons_self _ _
      have hkept := keptStack_mem false _ hk e0 he0
      cases e0 with
      | nil => exact absurd rfl hkept.1
      | cons y ys0 =>
        obtain ⟨ys, hys⟩ := joinSlash_head (y :: ys0) es0 y ys0 rfl
        refine ⟨y, ys, ?_, ?_, ?_⟩
        · rw [hrev, hr]
          simpa using hys
        · intro hy
          apply hkept.2.2
          simp [hy]
        · rw [← hys, ← hr]
          exact foldl_split_joinSlash false _ hk (by simp)

/-- Cleaning a path, appending a separator and more, and cleaning again is
cleaning the whole at once. -/
theorem cleanChars_append (p c : List Char) (hp : p ≠ []) :
    cleanChars (cleanChars p ++ '/' :: c) = cleanChars (p ++ '/' :: c) := by
  cases p with
  | nil => exact absurd rfl hp
  | cons x xs =>
    by_cases hx : x = '/'
    · subst hx
      have hk := keptStack_split true ('/' :: xs)
      rw [cleanChars_rooted, List.cons_append, List.cons_append, cleanChars_rooted,
        cleanChars_rooted, ← List.cons_append, ← List.cons_append, cleanElems_append,
        cleanElems_append]
      congr 4
      have hs : splitSlash ('/' :: joinSlash (cleanElems true ('/' :: xs))) =
          [] :: splitSlash (joinSlash (cleanElems true ('/' :: xs))) := by
        rw [splitSlash]; simp
      rw [hs, List.foldl_cons, cleanStep_skip true [] [] (Or.inl rfl)]
      by_cases hne : (splitSlash ('/' :: xs)).foldl (cleanStep true) [] = []
      · have he : cleanElems true ('/' :: xs) = [] := by simp [cleanElems, hne]
        rw [he, hne]
        simp [joinSlash, splitSlash, cleanStep]
      · exact foldl_split_joinSlash true _ hk hne
    · obtain ⟨y, ys, hc, hy, hf⟩ := cleanChars_unrooted_head x xs hx
      rw [hc, List.cons_append, List.cons_append, cleanChars_unrooted y _ hy,
        cleanChars_unrooted x _ hx, ← List.cons_append, ← List.cons_append,
        cleanElems_append, cleanElems_append, hf]

theorem cleanChars_ne_nil (p : List Char) : cleanChars p ≠ [] := by
  cases p with
  | nil => simp [cleanChars]
  | cons x xs =>
    by_cases hx : x = '/'
    · subst hx
      rw [cleanChars_rooted]
      simp
    · obtain ⟨y, ys, hc, -, -⟩ := cleanChars_unrooted_head x xs hx
      rw [hc]
      simp

theorem Clean_ne_empty (p : String) : Clean p ≠ "" := by
  intro h
  have := congrArg String.data h
  exact cleanChars_ne_nil p.toList this

/-- On strings: `Clean (Clean p ++ "/" ++ c) = Clean (p ++ "/" ++ c)` when `p` is not empty. -/
theorem Clean_append (p c : String) (hp : p ≠ "") :
    Clean (Clean p ++ "/" ++ c) = Clean (p ++ "/" ++ c) := by
  have hp' : p.toList ≠ [] := by
    intro h
    apply hp
    cases p
    simp_all
  have := cleanChars_append p.toList c.toList hp'
  simp only [Clean, String.toList, String.data_append] at this ⊢
  rw [List.append_assoc, List.singleton_append, this, List.append_assoc,
    List.singleton_append]

/-- Joining in two steps is joining at once. -/
theorem Join_Join (a b c : String) : Join [Join [a, b], c] = Join [a, b, c] := by
  by_cases ha : a = ""
  · by_cases hb : b = ""
    · simp [Join, ha, hb]
    · have h1 : Join [a, b] = Clean b := by simp [Join, ha, hb, joinWithSep]
      rw [h1]
      simp only [Join, ha, hb, if_true, if_false, Clean_ne_empty, joinWithSep]
      exact Clean_append b c hb
  · have h1 : Join [a, b] = Clean (a ++ "/" ++ b) := by simp [Join, ha, joinWithSep]
    rw [h1]
    simp only [Join, ha, if_false, Clean_ne_empty, joinWithSep]
    have hab : a ++ "/" ++ b ≠ "" := by
      intro h
      have := congrArg String.length h
      simp only [String.length_append] at this
      have h1 : ("/" : String).length = 1 := rfl
      have h0 : ("" : String).length = 0 := rfl
      omega
    rw [Clean_append (a ++ "/" ++ b) c hab]
    simp [String.append_assoc]

/-! ## Session builder: `httpClient` and `NewService` -/

/-- C1 (cache hit).  When `tokenFromFile h.TokenFile` succeeds with token `t`,
`httpClient` returns the client `h.Config.Client(h.Ctx, t)` with a nil error; the
only call it records is that of `Config.Client`, so neither `tokenFromWeb` nor
`saveToken` is invoked; nothing is written to the console, no line is read from
it, and the files are as before. -/
theorem httpClient_cache_hit (env : Env) (h : Helper) (w : World) (t : Token)
    (hit : tokenFromFile env w h.TokenFile = (some t, none)) :
    (h.httpClient env w).1 = (some (configClient w h.Config h.Ctx (some t)).1, none) ∧
    (h.httpClient env w).2.calls = w.calls ++ [Call.client (some t)] ∧
    (h.httpClient env w).2.stdout = w.stdout ∧
    (h.httpClient env w).2.stdin = w.stdin ∧
    (h.httpClient env w).2.files = w.files ∧
    (h.httpClient env w).2 = w.record (Call.client (some t)) := by
  simp [Helper.httpClient, hit, configClient, World.record]

/-- Witness of C1: the cached world, whose cache file holds `sampleToken`. -/
theorem httpClient_cache_hit_witness :
    tokenFromFile sampleEnv cachedWorld sampleHelper.TokenFile = (some sampleToken, none) ∧
    (sampleHelper.httpClient sampleEnv cachedWorld).1 =
      (some ⟨sampleHelper.Config, sampleHelper.Ctx, some sampleToken⟩, none) ∧
    (sampleHelper.httpClient sampleEnv cachedWorld).2.stdout = "" ∧
    (sampleHelper.httpClient sampleEnv cachedWorld).2.stdin = ["never read"] :=
  have hit : tokenFromFile sampleEnv cachedWorld sampleHelper.TokenFile =
      (some sampleToken, none) := by decide
  have r := httpClient_cache_hit sampleEnv sampleHelper cachedWorld sampleToken hit
  ⟨hit, r.1, r.2.2.1, r.2.2.2.1⟩

/-- The run of `tokenFromWeb` when no line can be read. -/
theorem tokenFromWeb_no_line (env : Env) (w : World) (config : Config)
    (hs : (scanText w.stdin).1 = none) :
    (tokenFromWeb env w config).1 = (none, some "Unable to read authorization code") ∧
    (tokenFromWeb env w config).2.calls = w.calls ++ [Call.tokenFromWeb config] ∧
    (tokenFromWeb env w config).2.stdin = (scanText w.stdin).2 ∧
    (tokenFromWeb env w config).2.files = w.files := by
  simp [tokenFromWeb, scanLine, World.print, World.record, hs]

/-- The run of `tokenFromWeb` when a line is read. -/
theorem tokenFromWeb_line (env : Env) (w : World) (config : Config) (text : String)
    (hs : (scanText w.stdin).1 = some text) :
    (tokenFromWeb env w config).1 =
      (match env.Exchange config (TrimSpace text) with
        | (_, some err) => (none, some ("Unable to retrieve token from web " ++ err))
        | (token, none) => (token, none)) ∧
    (tokenFromWeb env w config).2.calls =
      w.calls ++ [Call.tokenFromWeb config, Call.exchange (TrimSpace text)] ∧
    (tokenFromWeb env w config).2.stdin = (scanText w.stdin).2 ∧
    (tokenFromWeb env w config).2.files = w.files := by
  rcases hx : env.Exchange config (TrimSpace text) with ⟨tok, err⟩
  cases err <;> simp [tokenFromWeb, scanLine, World.print, World.record, hs, hx]

/-- The files are as before after `tokenFromWeb`. -/
theorem tokenFromWeb_files (env : Env) (w : World) (config : Config) :
    (tokenFromWeb env w config).2.files = w.files := by
  cases hs : (scanText w.stdin).1 with
  | none => exact (tokenFromWeb_no_line env w config hs).2.2.2
  | some text => exact (tokenFromWeb_line env w config text hs).2.2.2

/-- A failing `tokenFromWeb` returns no token and records no call but its own
entry and, when a line was read, the exchange. -/
theorem tokenFromWeb_failure (env : Env) (w : World) (config : Config) (e : GoError)
    (fail : (tokenFromWeb env w config).1.2 = some e) :
    (tokenFromWeb env w config).1 = (none, some e) ∧
    ∃ cs, (tokenFromWeb env w config).2.calls = w.calls ++ Call.tokenFromWeb config :: cs ∧
      ∀ c ∈ cs, ∃ code, c = Call.exchange code := by
  cases hs : (scanText w.stdin).1 with
  | none =>
    obtain ⟨h1, h2, -⟩ := tokenFromWeb_no_line env w config hs
    rw [h1] at fail ⊢
    simp only [Option.some.injEq] at fail
    exact ⟨by rw [fail], [], by simpa using h2, by simp⟩
  | some text =>
    obtain ⟨h1, h2, -⟩ := tokenFromWeb_line env w config text hs
    refine ⟨?_, [Call.exchange (TrimSpace text)], by simpa using h2, by simp⟩
    rw [h1] at fail ⊢
    rcases hx : env.Exchange config (TrimSpace text) with ⟨tok, err⟩
    rw [hx] at fail
    cases err with
    | none => simp at fail
    | some err =>
      simp only [Option.some.injEq] at fail
      simp [fail]

/-- What `saveToken` records: its own entry and nothing else. -/
theorem saveToken_calls (env : Env) (w : World) (file : String) (token : Option Token) :
    (saveToken env w file token).2.calls = w.calls ++ [Call.saveToken file token] := by
  unfold saveToken
  simp only []
  cases ho : osOpenFile ((w.record (Call.saveToken file token)).print
      ("Saving credential file to: " ++ file ++ "\n")) file with
  | error err => simp [World.print, World.record]
  | ok w2 =>
    have h2 : w2.calls = w.calls ++ [Call.saveToken file token] := by
      unfold osOpenFile at ho
      split_ifs at ho
      simp only [Except.ok.injEq] at ho
      rw [← ho]
      simp [World.print, World.record, World.setFile]
    simp only []
    unfold encoderEncode
    cases env.jsonEncode token with
    | error err => simpa using h2
    | ok data =>
      simp only []
      unfold fileWrite
      split_ifs
      · simpa using h2
      · simpa [World.setFile] using h2

/-- C2 (cache miss, authorization succeeds).  When `tokenFromFile h.TokenFile`
fails and `tokenFromWeb h.Config` returns token `t`, `httpClient` returns the
client `h.Config.Client(h.Ctx, t)` with a nil error, whatever `saveToken`
returns; the calls it records are one entry into `tokenFromWeb`, the exchange
inside it, one entry into `saveToken` with `h.TokenFile` and `t`, and the call
of `Config.Client`, in this order; and the world it leaves is the one left by
`tokenFromWeb` followed by `saveToken`. -/
theorem httpClient_cache_miss (env : Env) (h : Helper) (w : World) (t : Token)
    (miss : (tokenFromFile env w h.TokenFile).2 ≠ none)
    (web : (tokenFromWeb env w h.Config).1 = (some t, none)) :
    (h.httpClient env w).1 = (some ⟨h.Config, h.Ctx, some t⟩, none) ∧
    (∃ code, (h.httpClient env w).2.calls =
      w.calls ++ [Call.tokenFromWeb h.Config, Call.exchange code,
        Call.saveToken h.TokenFile (some t), Call.client (some t)]) ∧
    (h.httpClient env w).2 =
      (saveToken env (tokenFromWeb env w h.Config).2 h.TokenFile (some t)).2.record
        (Call.client (some t)) := by
  have hres : h.httpClient env w =
      ((some ⟨h.Config, h.Ctx, some t⟩, none),
        (saveToken env (tokenFromWeb env w h.Config).2 h.TokenFile (some t)).2.record
          (Call.client (some t))) := by
    unfold Helper.httpClient
    rcases hf : tokenFromFile env w h.TokenFile with ⟨tok, err⟩
    cases err with
    | none => simp [hf] at miss
    | some e =>
      rcases hw : tokenFromWeb env w h.Config with ⟨⟨tok2, err2⟩, w1⟩
      rw [hw] at web
      simp only [Prod.mk.injEq] at web
      obtain ⟨rfl, rfl⟩ := web
      simp [configClient]
  refine ⟨by rw [hres], ?_, by rw [hres]⟩
  rw [hres]
  simp only [World.record, saveToken_calls]
  cases hs : (scanText w.stdin).1 with
  | none =>
    rw [(tokenFromWeb_no_line env w h.Config hs).1] at web
    simp at web
  | some text =>
    exact ⟨TrimSpace text, by simp [(tokenFromWeb_line env w h.Config text hs).2.1]⟩

/-- Witness of C2: no cache file, the cache file may not be written (so
`saveToken` fails), the user types the code `abc123`. -/
theorem httpClient_cache_miss_witness :
    (tokenFromFile sampleEnv (readOnlyWorld [" abc123 "]) sampleHelper.TokenFile).2 ≠ none ∧
    (tokenFromWeb sampleEnv (readOnlyWorld [" abc123 "]) sampleHelper.Config).1 =
      (some sampleToken, none) ∧
    (saveToken sampleEnv (tokenFromWeb sampleEnv (readOnlyWorld [" abc123 "])
        sampleHelper.Config).2 sampleHelper.TokenFile (some sampleToken)).1 ≠ none ∧
    (sampleHelper.httpClient sampleEnv (readOnlyWorld [" abc123 "])).1 =
      (some ⟨sampleHelper.Config, sampleHelper.Ctx, some sampleToken⟩, none) :=
  ⟨by decide, by decide, by decide,
    (httpClient_cache_miss sampleEnv sampleHelper (readOnlyWorld [" abc123 "]) sampleToken
      (by decide) (by decide)).1⟩

/-- The error of `NewService` is not nil exactly when `httpClient` fails or
`gmail.New` rejects the client `httpClient` returned. -/
theorem NewService_error_iff (env : Env) (h : Helper) (w : World) :
    (h.NewService env w).1.2 ≠ none ↔
      ((h.httpClient env w).1.2 ≠ none ∨
        ((h.httpClient env w).1.2 = none ∧
          (env.gmailNew (h.httpClient env w).1.1).2 ≠ none)) := by
  unfold Helper.NewService
  rcases hc : h.httpClient env w with ⟨⟨client, err⟩, w1⟩
  cases err with
  | some e => simp
  | none =>
    rcases hg : env.gmailNew client with ⟨srv, gerr⟩
    cases gerr <;> simp [hg]

/-- The result of `NewService` is never a service next to an error. -/
theorem NewService_not_both (env : Env) (h : Helper) (w : World) :
    ¬ ((h.NewService env w).1.1 ≠ none ∧ (h.NewService env w).1.2 ≠ none) := by
  unfold Helper.NewService
  rcases hc : h.httpClient env w with ⟨⟨client, err⟩, w1⟩
  cases err with
  | some e => simp
  | none =>
    rcases hg : env.gmailNew client with ⟨srv, gerr⟩
    cases gerr <;> simp [hg]

/-- C3 (authorization failure is terminal and reported).  When
`tokenFromFile h.TokenFile` fails and `tokenFromWeb h.Config` fails with error
`e`, `httpClient` returns `(nil, e)` and `NewService` returns `(nil, e)`; the
calls recorded are the entry into `tokenFromWeb` and at most exchanges, so
`saveToken` is not called and no client is built, and the files are as before.
For every helper and world, the error of `NewService` is not nil exactly when
`httpClient` fails or `gmail.New` rejects the client, and `NewService` never
returns a service next to an error. -/
theorem authorization_failure_terminal (env : Env) (h : Helper) (w : World) (e : GoError)
    (miss : (tokenFromFile env w h.TokenFile).2 ≠ none)
    (fail : (tokenFromWeb env w h.Config).1.2 = some e) :
    (h.httpClient env w).1 = (none, some e) ∧
    (h.NewService env w).1 = (none, some e) ∧
    (∃ cs, (h.NewService env w).2.calls = w.calls ++ Call.tokenFromWeb h.Config :: cs ∧
      ∀ c ∈ cs, ∃ code, c = Call.exchange code) ∧
    (h.httpClient env w).2.files = w.files ∧
    (h.NewService env w).2.files = w.files ∧
    (∀ (h' : Helper) (w' : World),
      ((h'.NewService env w').1.2 ≠ none ↔
        ((h'.httpClient env w').1.2 ≠ none ∨
          ((h'.httpClient env w').1.2 = none ∧
            (env.gmailNew (h'.httpClient env w').1.1).2 ≠ none))) ∧
      ¬ ((h'.NewService env w').1.1 ≠ none ∧ (h'.NewService env w').1.2 ≠ none)) := by
  have hres : h.httpClient env w = ((none, some e), (tokenFromWeb env w h.Config).2) := by
    unfold Helper.httpClient
    rcases hf : tokenFromFile env w h.TokenFile with ⟨tok, err⟩
    cases err with
    | none => simp [hf] at miss
    | some e0 =>
      rcases hw : tokenFromWeb env w h.Config with ⟨⟨tok2, err2⟩, w1⟩
      rw [hw] at fail
      simp only at fail
      subst fail
      rfl
  have hsrv : h.NewService env w = ((none, some e), (tokenFromWeb env w h.Config).2) := by
    unfold Helper.NewService
    rw [hres]
  refine ⟨by rw [hres], by rw [hsrv], ?_, ?_, ?_, ?_⟩
  · rw [hsrv]
    exact (tokenFromWeb_failure env w h.Config e fail).2
  · rw [hres]
    exact tokenFromWeb_files env w h.Config
  · rw [hsrv]
    exact tokenFromWeb_files env w h.Config
  · intro h' w'
    exact ⟨NewService_error_iff env h' w', NewService_not_both env h' w'⟩

/-- Witness of C3: no cache file, and the code typed is rejected by the exchange. -/
theorem authorization_failure_terminal_witness :
    (tokenFromFile sampleEnv (freshWorld ["bad"]) sampleHelper.TokenFile).2 ≠ none ∧
    (tokenFromWeb sampleEnv (freshWorld ["bad"]) sampleHelper.Config).1.2 =
      some "Unable to retrieve token from web oauth2: cannot fetch token: 400 Bad Request" ∧
    (sampleHelper.NewService sampleEnv (freshWorld ["bad"])).1 =
      (none, some "Unable to retrieve token from web oauth2: cannot fetch token: 400 Bad Request") ∧
    (sampleHelper.NewService sampleEnv (freshWorld ["bad"])).2.files =
      (freshWorld ["bad"]).files :=
  have r := authorization_failure_terminal sampleEnv sampleHelper (freshWorld ["bad"])
    "Unable to retrieve token from web oauth2: cannot fetch token: 400 Bad Request"
    (by decide) (by decide)
  ⟨by decide, by decide, r.2.1, r.2.2.2.2.1⟩

/-! ## Interactive authorizer: `tokenFromWeb` -/

/-- What a scan leaves of the input is the input without a number of reads. -/
theorem scanFrom_drop (buf : List Char) (chunks : List String) :
    ∃ n, (scanFrom buf chunks).2 = chunks.drop n := by
  induction chunks generalizing buf with
  | nil => exact ⟨0, rfl⟩
  | cons chunk rest ih =>
    unfold scanFrom
    split_ifs
    · exact ⟨0, rfl⟩
    · obtain ⟨n, hn⟩ := ih (buf ++ chunk.toList)
      exact ⟨n + 1, by simpa using hn⟩

/-- The text before the first newline of a buffer that holds the first line. -/
theorem takeWhile_first_line (line more : List Char) (hl : '\n' ∉ line) :
    ∀ (buf rest : List Char), buf ++ rest = line ++ '\n' :: more → '\n' ∈ buf →
      buf.takeWhile (fun c => c != '\n') = line := by
  induction line with
  | nil =>
    intro buf rest h hb
    cases buf with
    | nil => simp at hb
    | cons b bs =>
      simp only [List.cons_append, List.nil_append, List.cons.injEq] at h
      simp [h.1]
  | cons a l ih =>
    intro buf rest h hb
    simp only [List.mem_cons, not_or] at hl
    cases buf with
    | nil => simp at hb
    | cons b bs =>
      simp only [List.cons_append, List.cons.injEq] at h
      obtain ⟨rfl, h2⟩ := h
      have hne : b ≠ '\n' := fun hb' => hl.1 hb'.symm
      have hbs : '\n' ∈ bs := by
        simp only [List.mem_cons] at hb
        rcases hb with hb | hb
        · exact absurd hb.symm hne
        · exact hb
      simp [List.takeWhile_cons, hne, ih hl.2 bs rest h2 hbs]

/-- A buffer without a newline that starts the input is no longer than the first line. -/
theorem byteLen_le_first_line (line more : List Char) :
    ∀ (buf rest : List Char), buf ++ rest = line ++ '\n' :: more → '\n' ∉ buf →
      byteLen buf ≤ byteLen line := by
  induction line with
  | nil =>
    intro buf rest h hb
    cases buf with
    | nil => simp [byteLen]
    | cons b bs =>
      simp only [List.cons_append, List.nil_append, List.cons.injEq] at h
      simp [h.1] at hb
  | cons a l ih =>
    intro buf rest h hb
    cases buf with
    | nil => simp [byteLen]
    | cons b bs =>
      simp only [List.cons_append, List.cons.injEq] at h
      obtain ⟨rfl, h2⟩ := h
      simp only [List.mem_cons, not_or] at hb
      have := ih bs rest h2 hb.2
      simp only [byteLen, List.map_cons, List.sum_cons] at this ⊢
      omega

/-- The token found in a buffer that holds the first line of the input. -/
theorem scanToken_first_line (line more buf rest : List Char) (hl : '\n' ∉ line)
    (hlen : byteLen line < maxScanTokenSize) (h : buf ++ rest = line ++ '\n' :: more)
    (hb : '\n' ∈ buf) : scanToken buf = some (String.mk (dropCR line)) := by
  unfold scanToken
  simp only [takeWhile_first_line line more hl buf rest h hb]
  rw [if_neg (by omega), if_pos hb]

/-- The line a scan finds is the first line of the input, however the reads
divide the input. -/
theorem scanFrom_first_line (line more : List Char) (hl : '\n' ∉ line)
    (hlen : byteLen line < maxScanTokenSize) :
    ∀ (chunks : List String) (buf : List Char),
      buf ++ (chunks.map String.toList).flatten = line ++ '\n' :: more →
      (scanFrom buf chunks).1 = some (String.mk (dropCR line)) := by
  intro chunks
  induction chunks with
  | nil =>
    intro buf h
    have hb : '\n' ∈ buf := by
      simp only [List.map_nil, List.flatten_nil, List.append_nil] at h
      rw [h]
      simp
    simpa [scanFrom] using scanToken_first_line line more buf _ hl hlen h hb
  | cons chunk rest ih =>
    intro buf h
    unfold scanFrom
    by_cases hb : '\n' ∈ buf
    · rw [if_pos (Or.inl hb)]
      exact scanToken_first_line line more buf _ hl hlen h hb
    · have hle := byteLen_le_first_line line more buf _ h hb
      rw [if_neg (by
        intro hc
        rcases hc with hc | hc
        · exact hb hc
        · omega)]
      apply ih
      simpa using h

/-- C10, amended.  The function `tokenFromWeb` scans standard input once and uses
at most one line.  When no line can be read it returns
`(nil, "Unable to read authorization code")` and the exchange is not called.
When a line is read, the exchange is called once, with the line trimmed of
leading and trailing white space, and never again; its token is returned with a
nil error when it succeeds, and `(nil, "Unable to retrieve token from web " ++ err)`
when it fails with `err`.  The line is the first line of the input, however the
reads divide it.  What is consumed of standard input is a number of whole
reads: when the first read delivers one line with its newline, as on a
terminal, that read alone is consumed. -/
theorem tokenFromWeb_spec (env : Env) (w : World) (config : Config) :
    (∃ n, (tokenFromWeb env w config).2.stdin = w.stdin.drop n) ∧
    ((scanText w.stdin).1 = none →
      (tokenFromWeb env w config).1 = (none, some "Unable to read authorization code") ∧
      (tokenFromWeb env w config).2.calls = w.calls ++ [Call.tokenFromWeb config]) ∧
    (∀ text, (scanText w.stdin).1 = some text →
      (tokenFromWeb env w config).2.calls =
        w.calls ++ [Call.tokenFromWeb config, Call.exchange (TrimSpace text)] ∧
      (∀ token, env.Exchange config (TrimSpace text) = (token, none) →
        (tokenFromWeb env w config).1 = (token, none)) ∧
      (∀ token err, env.Exchange config (TrimSpace text) = (token, some err) →
        (tokenFromWeb env w config).1 =
          (none, some ("Unable to retrieve token from web " ++ err)))) ∧
    (∀ line more, (w.stdin.map String.toList).flatten = line ++ '\n' :: more →
      '\n' ∉ line → byteLen line < maxScanTokenSize →
      (scanText w.stdin).1 = some (String.mk (dropCR line))) ∧
    (∀ (line : String) (rest : List String), w.stdin = (line ++ "\n") :: rest →
      '\n' ∉ line.toList → byteLen line.toList < maxScanTokenSize →
      (tokenFromWeb env w config).2.stdin = rest) := by
  have hstdin : (tokenFromWeb env w config).2.stdin = (scanText w.stdin).2 := by
    cases hs : (scanText w.stdin).1 with
    | none => exact (tokenFromWeb_no_line env w config hs).2.2.1
    | some text => exact (tokenFromWeb_line env w config text hs).2.2.1
  refine ⟨?_, ?_, ?_, ?_, ?_⟩
  · rw [hstdin]
    exact scanFrom_drop [] w.stdin
  · intro hs
    exact ⟨(tokenFromWeb_no_line env w config hs).1, (tokenFromWeb_no_line env w config hs).2.1⟩
  · intro text hs
    obtain ⟨h1, h2, -⟩ := tokenFromWeb_line env w config text hs
    refine ⟨h2, ?_, ?_⟩
    · intro token hx
      rw [h1, hx]
    · intro token err hx
      rw [h1, hx]
  · intro line more h hl hlen
    exact scanFrom_first_line line more hl hlen w.stdin [] (by simpa using h)
  · intro line rest hw hl hlen
    rw [hstdin, hw]
    have hmem : '\n' ∈ line.toList ++ ['\n'] := by simp
    have hbuf : ([] : List Char) ++ (line ++ "\n").toList = line.toList ++ ['\n'] := by
      simp [String.toList, String.data_append]
    cases rest with
    | nil => simp [scanText, scanFrom, byteLen, maxScanTokenSize]
    | cons c2 r2 =>
      simp only [scanText]
      rw [scanFrom, if_neg (by simp [byteLen, maxScanTokenSize]), hbuf, scanFrom,
        if_pos (Or.inl hmem)]

/-- Witness of C10, amended: on a terminal two lines are typed, the first is
`" abc123 "`; it is trimmed and exchanged, the second stays unread. -/
theorem tokenFromWeb_spec_witness :
    (tokenFromWeb sampleEnv (freshWorld [" abc123 \n", "next\n"]) sampleHelper.Config).1 =
      (some sampleToken, none) ∧
    (tokenFromWeb sampleEnv (freshWorld [" abc123 \n", "next\n"]) sampleHelper.Config).2.stdin =
      ["next\n"] ∧
    (tokenFromWeb sampleEnv (freshWorld [" abc123 \n", "next\n"]) sampleHelper.Config).2.calls =
      [Call.tokenFromWeb sampleHelper.Config, Call.exchange "abc123"] :=
  have r := tokenFromWeb_spec sampleEnv (freshWorld [" abc123 \n", "next\n"]) sampleHelper.Config
  have hs : (scanText (freshWorld [" abc123 \n", "next\n"]).stdin).1 = some " abc123 " := by
    decide
  ⟨(r.2.2.1 " abc123 " hs).2.1 (some sampleToken) (by decide),
    r.2.2.2.2 " abc123 " ["next\n"] rfl (by decide) (by decide),
    (r.2.2.1 " abc123 " hs).1⟩

/-- Refutation of C10 as stated: standard input is redirected and the first read
delivers the two lines `abc123` and `next` at once; `tokenFromWeb` exchanges the
first and leaves nothing of the input, so the second line has been read too. -/
theorem tokenFromWeb_reads_beyond_line :
    (tokenFromWeb sampleEnv (freshWorld ["abc123\nnext\n"]) sampleHelper.Config).1 =
      (some sampleToken, none) ∧
    (tokenFromWeb sampleEnv (freshWorld ["abc123\nnext\n"]) sampleHelper.Config).2.calls =
      [Call.tokenFromWeb sampleHelper.Config, Call.exchange "abc123"] ∧
    (tokenFromWeb sampleEnv (freshWorld ["abc123\nnext\n"]) sampleHelper.Config).2.stdin = [] ∧
    String.join
        (tokenFromWeb sampleEnv (freshWorld ["abc123\nnext\n"]) sampleHelper.Config).2.stdin ≠
      "next\n" := by
  refine ⟨by decide, by decide, by decide, by decide⟩

/-! ## Config loader: `ConfigFromJSON` -/

/-- C9.  The function `ConfigFromJSON` returns
`(nil, "Unable to read client secret file: " ++ err)` when the file cannot be
read, `(nil, "Unable to parse client secret file to config: " ++ err)` when it
is read and `google.ConfigFromJSON` rejects its content, and otherwise the
configuration `google.ConfigFromJSON` produced, with a nil error; it never
returns a configuration next to an error, and the world is left as it was. -/
theorem ConfigFromJSON_spec (env : Env) (w : World) (jsonPath scope : String) :
    (∀ err, ioutilReadFile w jsonPath = .error err →
      (ConfigFromJSON env w jsonPath scope).1 =
        (none, some ("Unable to read client secret file: " ++ err))) ∧
    (∀ b config err, ioutilReadFile w jsonPath = .ok b →
      env.googleConfigFromJSON b scope = (config, some err) →
      (ConfigFromJSON env w jsonPath scope).1 =
        (none, some ("Unable to parse client secret file to config: " ++ err))) ∧
    (∀ b config, ioutilReadFile w jsonPath = .ok b →
      env.googleConfigFromJSON b scope = (config, none) →
      (ConfigFromJSON env w jsonPath scope).1 = (config, none)) ∧
    ¬ ((ConfigFromJSON env w jsonPath scope).1.1 ≠ none ∧
        (ConfigFromJSON env w jsonPath scope).1.2 ≠ none) ∧
    (ConfigFromJSON env w jsonPath scope).2 = w := by
  cases hr : ioutilReadFile w jsonPath with
  | error err0 =>
    have key : ConfigFromJSON env w jsonPath scope =
        ((none, some ("Unable to read client secret file: " ++ err0)), w) := by
      simp [ConfigFromJSON, hr]
    rw [key]
    simp
  | ok b0 =>
    rcases hg : env.googleConfigFromJSON b0 scope with ⟨config0, err0⟩
    cases err0 with
    | none =>
      have key : ConfigFromJSON env w jsonPath scope = ((config0, none), w) := by
        simp [ConfigFromJSON, hr, hg]
      rw [key]
      refine ⟨by simp, ?_, ?_, by simp, rfl⟩
      · intro b config err hb hx
        simp only [Except.ok.injEq] at hb
        subst hb
        rw [hg] at hx
        simp at hx
      · intro b config hb hx
        simp only [Except.ok.injEq] at hb
        subst hb
        rw [hg] at hx
        simp only [Prod.mk.injEq, and_true] at hx
        simp [hx]
    | some e0 =>
      have key : ConfigFromJSON env w jsonPath scope =
          ((none, some ("Unable to parse client secret file to config: " ++ e0)), w) := by
        simp [ConfigFromJSON, hr, hg]
      rw [key]
      refine ⟨by simp, ?_, ?_, by simp, rfl⟩
      · intro b config err hb hx
        simp only [Except.ok.injEq] at hb
        subst hb
        rw [hg] at hx
        simp only [Prod.mk.injEq, Option.some.injEq] at hx
        simp [hx.2]
      · intro b config hb hx
        simp only [Except.ok.injEq] at hb
        subst hb
        rw [hg] at hx
        simp at hx

/-- Witness of C9: a missing file, a file that is not a client secret, and the
client secret file. -/
theorem ConfigFromJSON_spec_witness :
    (ConfigFromJSON sampleEnv (freshWorld []) "nope.json" "gmail.readonly").1 =
      (none, some ("Unable to read client secret file: " ++
        "open nope.json: no such file or directory")) ∧
    (ConfigFromJSON sampleEnv cachedWorld "/home/u/.credentials/gmail-token.json"
        "gmail.readonly").1 =
      (none, some ("Unable to parse client secret file to config: " ++
        "unexpected end of JSON input")) ∧
    (ConfigFromJSON sampleEnv (freshWorld []) "client_secret.json" "gmail.readonly").1 =
      (some (sampleConfig "gmail.readonly"), none) :=
  ⟨(ConfigFromJSON_spec sampleEnv (freshWorld []) "nope.json" "gmail.readonly").1
      "open nope.json: no such file or directory" rfl,
    (ConfigFromJSON_spec sampleEnv cachedWorld "/home/u/.credentials/gmail-token.json"
      "gmail.readonly").2.1 sampleJSON none "unexpected end of JSON input"
      rfl (by decide),
    (ConfigFromJSON_spec sampleEnv (freshWorld []) "client_secret.json" "gmail.readonly").2.2.1
      sampleSecret (some (sampleConfig "gmail.readonly")) rfl (by decide)⟩

/-! ## Token store: `CreateTokenFile`, `DefaultDirectory`, `saveToken`, `tokenFromFile` -/

/-- C5.  For every directory `d` and file name `f`, the path `CreateTokenFile`
returns is `filepath.Join(d, url.QueryEscape(f))`, in every world; it depends on
`d` and `f` only, so a second call, made in the world the first one left, returns
the same path.  For instance the directory `/home/u/.credentials` and the file
name `gmail token.json` give `/home/u/.credentials/gmail+token.json`. -/
theorem CreateTokenFile_path (w w' : World) (d f : String) :
    (CreateTokenFile w d f).1.1 = Join [d, QueryEscape f] ∧
    (CreateTokenFile w' d f).1.1 = (CreateTokenFile w d f).1.1 ∧
    (CreateTokenFile (CreateTokenFile w d f).2 d f).1.1 = (CreateTokenFile w d f).1.1 ∧
    (CreateTokenFile w "/home/u/.credentials" "gmail token.json").1.1 =
      "/home/u/.credentials/gmail+token.json" := by
  refine ⟨rfl, rfl, rfl, ?_⟩
  simp only [CreateTokenFile]
  decide

/-- C6, the code at the failing input: `/root` exists and the process may not
create `/root/.credentials` in it; `os.MkdirAll` fails with a permission error,
and `CreateTokenFile` returns the path with a nil error, the directory not
being created. -/
theorem CreateTokenFile_mkdir_error_dropped :
    (osMkdirAll lockedWorld "/root/.credentials").1 =
      some "mkdir /root/.credentials: permission denied" ∧
    (CreateTokenFile lockedWorld "/root/.credentials" "gmail-token.json").1 =
      ("/root/.credentials/gmail-token.json", none) ∧
    (CreateTokenFile lockedWorld "/root/.credentials" "gmail-token.json").2.isDir
      "/root/.credentials" = false := by
  refine ⟨by decide, by decide, by decide⟩

/-- The error `CreateTokenFile` returns is nil in every world, and the world it
leaves is the one `os.MkdirAll` leaves. -/
theorem CreateTokenFile_error_nil (w : World) (d f : String) :
    (CreateTokenFile w d f).1.2 = none ∧
    (CreateTokenFile w d f).2 = (osMkdirAll w d).2 :=
  ⟨rfl, rfl⟩

/-- The content of a file just set. -/
theorem content_setFile (w : World) (path content : String) (hp : path ≠ "") :
    (w.setFile path content).content path = some content := by
  simp [World.setFile, World.content, List.lookup, hp]

/-- Save and load agree when the file can be opened, the device has room and
the decoder inverts the encoder on the token. -/
theorem saveToken_tokenFromFile (env : Env) (w : World) (p : String) (t : Token)
    (data : String) (henc : env.jsonEncode (some t) = .ok data)
    (hdec : env.jsonDecode data = (t, none))
    (hp : p ≠ "") (hdir : w.isDir p = false)
    (hcreate : ((w.content p).isNone && w.cannotCreate p) = false)
    (hw : Clean p ∉ w.noWrite) (hr : Clean p ∉ w.noRead)
    (hspace : w.noSpace = false) :
    (saveToken env w p (some t)).1 = none ∧
    (saveToken env w p (some t)).2.content p = some data ∧
    tokenFromFile env (saveToken env w p (some t)).2 p = (some t, none) := by
  have hopen : osOpenFile ((w.record (Call.saveToken p (some t))).print
      ("Saving credential file to: " ++ p ++ "\n")) p =
      .ok (((w.record (Call.saveToken p (some t))).print
        ("Saving credential file to: " ++ p ++ "\n")).setFile p "") := by
    have h1 : ((w.record (Call.saveToken p (some t))).print
        ("Saving credential file to: " ++ p ++ "\n")).isDir p = false := hdir
    have h2 : ((((w.record (Call.saveToken p (some t))).print
        ("Saving credential file to: " ++ p ++ "\n")).content p).isNone &&
        ((w.record (Call.saveToken p (some t))).print
          ("Saving credential file to: " ++ p ++ "\n")).cannotCreate p) = false := hcreate
    have h3 : Clean p ∉ ((w.record (Call.saveToken p (some t))).print
        ("Saving credential file to: " ++ p ++ "\n")).noWrite := hw
    have h4 : Clean p ∉ ((w.record (Call.saveToken p (some t))).print
        ("Saving credential file to: " ++ p ++ "\n")).noRead := hr
    simp [osOpenFile, h1, h2, h3, h4]
  have hwrite : ∀ w2 : World, w2.noSpace = false → w2.content p = some "" →
      encoderEncode env w2 p (some t) = (none, w2.setFile p data) := by
    intro w2 hs hc
    simp [encoderEncode, henc, fileWrite, hs, hc]
  have key : saveToken env w p (some t) =
      (none, (((w.record (Call.saveToken p (some t))).print
        ("Saving credential file to: " ++ p ++ "\n")).setFile p "").setFile p data) := by
    unfold saveToken
    simp only [hopen]
    rw [hwrite (((w.record (Call.saveToken p (some t))).print
      ("Saving credential file to: " ++ p ++ "\n")).setFile p "") hspace
      (content_setFile _ _ _ hp)]
  rw [key]
  refine ⟨rfl, content_setFile _ _ _ hp, ?_⟩
  have hnr : Clean p ∉ ((((w.record (Call.saveToken p (some t))).print
      ("Saving credential file to: " ++ p ++ "\n")).setFile p "").setFile p data).noRead := hr
  simp only [tokenFromFile, osOpen, content_setFile _ _ _ hp, hnr, if_false, hdec]

/-- C8, the code at the failing input: on a full device the cache file is
created, `Encode` fails to write, and `saveToken` returns a nil error; the file
is then empty and does not hold the serialization of the token. -/
theorem saveToken_write_error_dropped :
    (∃ w2, osOpenFile ((fullWorld.record
          (Call.saveToken sampleHelper.TokenFile (some sampleToken))).print
          ("Saving credential file to: " ++ sampleHelper.TokenFile ++ "\n"))
        sampleHelper.TokenFile = .ok w2 ∧
      (encoderEncode sampleEnv w2 sampleHelper.TokenFile (some sampleToken)).1 =
        some "write /home/u/.credentials/gmail-token.json: no space left on device") ∧
    (saveToken sampleEnv fullWorld sampleHelper.TokenFile (some sampleToken)).1 = none ∧
    (saveToken sampleEnv fullWorld sampleHelper.TokenFile (some sampleToken)).2.content
        sampleHelper.TokenFile = some "" ∧
    sampleEnv.jsonEncode (some sampleToken) = .ok sampleJSON ∧
    sampleJSON ≠ "" := by
  refine ⟨⟨_, rfl, by decide⟩, by decide, by decide, rfl, by decide⟩

/-- C4, the code at the failing input: on a full device `saveToken` returns a nil
error and `tokenFromFile` on the same path then fails with `EOF`, returning the
zero token and not the one saved. -/
theorem saveToken_then_tokenFromFile_fails :
    (saveToken sampleEnv fullWorld sampleHelper.TokenFile (some sampleToken)).1 = none ∧
    tokenFromFile sampleEnv
        (saveToken sampleEnv fullWorld sampleHelper.TokenFile (some sampleToken)).2
        sampleHelper.TokenFile = (some Token.zero, some "EOF") ∧
    Token.zero ≠ sampleToken := by
  refine ⟨by decide, by decide, by decide⟩

/-- Refutation of C7 as stated: the home directory is `/home/u`, the directory
argument is empty, and `CreateTokenFile` returns the relative path
`gmail-token.json`, not `/home/u/.credentials/gmail-token.json`. -/
theorem CreateTokenFile_no_default :
    (freshWorld []).currentUser = .ok "/home/u" ∧
    (CreateTokenFile (freshWorld []) "" "gmail-token.json").1.1 = "gmail-token.json" ∧
    Join ["/home/u", ".credentials", QueryEscape "gmail-token.json"] =
      "/home/u/.credentials/gmail-token.json" ∧
    (CreateTokenFile (freshWorld []) "" "gmail-token.json").1.1 ≠
      Join ["/home/u", ".credentials", QueryEscape "gmail-token.json"] := by
  refine ⟨rfl, by decide, by decide, by decide⟩

/-- C7, amended.  The function `CreateTokenFile` applies no default: for an empty
directory argument it returns the escaped file name, cleaned (the empty string
when that is empty), whatever the home directory is.  The default location is
obtained by passing the result of `DefaultDirectory` as the directory: when the
current user has home directory `home`, `DefaultDirectory` returns
`filepath.Join(home, ".credentials")` with a nil error, and `CreateTokenFile`
with that directory returns
`filepath.Join(home, ".credentials", url.QueryEscape(f))`. -/
theorem default_cache_location (w : World) (home f : String)
    (hu : w.currentUser = .ok home) :
    DefaultDirectory w = (Join [home, ".credentials"], none) ∧
    (CreateTokenFile w (DefaultDirectory w).1 f).1.1 =
      Join [home, ".credentials", QueryEscape f] ∧
    (CreateTokenFile w "" f).1.1 =
      (if QueryEscape f = "" then "" else Clean (QueryEscape f)) := by
  have hd : DefaultDirectory w = (Join [home, ".credentials"], none) := by
    simp [DefaultDirectory, hu]
  refine ⟨hd, ?_, ?_⟩
  · rw [hd]
    simp only [CreateTokenFile]
    exact Join_Join home ".credentials" (QueryEscape f)
  · simp [CreateTokenFile, Join, joinWithSep]

/-- Witness of C7, amended: the home directory `/home/u` and the file name
`gmail-token.json`. -/
theorem default_cache_location_witness :
    (freshWorld []).currentUser = .ok "/home/u" ∧
    (CreateTokenFile (freshWorld []) (DefaultDirectory (freshWorld [])).1
        "gmail-token.json").1.1 = "/home/u/.credentials/gmail-token.json" :=
  ⟨rfl, (default_cache_location (freshWorld []) "/home/u" "gmail-token.json" rfl).2.1.trans
    (by decide)⟩

end Gmailapi
